import Mathlib

/-!
Shallow embedding of the `rust-learning-ch4` executable (src/src/main.rs).

The program consists of two routines:
* `main` (the entry routine): binds a rebindable `&str` reference to the
  literal `"wow"`, prints it, reassigns it to `"howw"`, prints it inside an
  inner scope, copies the reference into a second binding `x`, prints that,
  and finally calls `strings()`.
* `strings` (the auxiliary routine): builds a heap-backed `String` from
  `"hello"`, appends `", world"`, prints it; builds a second `String`,
  moves it to a new binding and drops it explicitly; builds a third
  `String`, clones it, and prints original and clone.

The embedding models the statements of this program over an explicit state:
an environment of bindings separated by scope marks, a heap of allocated
buffers identified by allocation ids, the produced standard output, a log of
release (drop) events, the pool of string literals embedded in the program
image, and an external input that no statement ever reads.
-/

namespace Ch4

/-- A runtime value: either a reference to a string literal embedded in the
program image (`&str`), or ownership of a heap-allocated buffer (`String`),
identified by its allocation id. -/
inductive Value where
  | strRef (s : String)
  | owned (id : Nat)
  deriving DecidableEq, Repr

/-- An environment entry: a named binding whose value is `none` once it has
been moved out of (or dropped), or a scope mark delimiting a scope frame. -/
inductive EnvEntry where
  | var (name : String) (val : Option Value)
  | mark
  deriving DecidableEq, Repr

/-- A heap cell: allocation id, current contents, and whether the backing
storage is still alive (not yet released). -/
abbrev Heap := List (Nat × String × Bool)

/-- The interpreter state. `input` models every external input channel
(command line, environment, files, network); no statement reads it. -/
structure RState where
  env : List EnvEntry
  heap : Heap
  nextId : Nat
  output : List String
  drops : List Nat
  image : List String
  input : List String
  deriving DecidableEq, Repr

/-- Look up the most recent binding with the given name (crossing scope
marks); `some none` means the binding exists but has been moved out of. -/
def envLookup : List EnvEntry → String → Option (Option Value)
  | [], _ => none
  | .var n v :: rest, x => if n = x then some v else envLookup rest x
  | .mark :: rest, x => envLookup rest x

/-- Overwrite the most recent binding with the given name. -/
def envSet : List EnvEntry → String → Option Value → List EnvEntry
  | [], _, _ => []
  | .var n v :: rest, x, w =>
    if n = x then .var n w :: rest else .var n v :: envSet rest x w
  | .mark :: rest, x, w => .mark :: envSet rest x w

/-- Read the heap cell with the given allocation id. -/
def heapGet : Heap → Nat → Option (String × Bool)
  | [], _ => none
  | (i, c, a) :: rest, j => if i = j then some (c, a) else heapGet rest j

/-- Replace the contents of the heap cell with the given allocation id. -/
def heapSetContent : Heap → Nat → String → Heap
  | [], _, _ => []
  | (i, c, a) :: rest, j, c' =>
    if i = j then (i, c', a) :: heapSetContent rest j c'
    else (i, c, a) :: heapSetContent rest j c'

/-- Mark the heap cell with the given allocation id as released. -/
def heapKill : Heap → Nat → Heap
  | [], _ => []
  | (i, c, a) :: rest, j =>
    if i = j then (i, c, false) :: heapKill rest j
    else (i, c, a) :: heapKill rest j

/-- Mark every heap cell in the given id list as released. -/
def heapKillAll (h : Heap) : List Nat → Heap
  | [] => h
  | j :: js => heapKillAll (heapKill h j) js

/-- Pop environment entries up to and including the innermost scope mark,
returning the allocation ids of the still-valid owned bindings popped (those
whose storage the end of scope releases) together with the remaining
environment.  A binding that was moved out of (`none`) releases nothing. -/
def framePop : List EnvEntry → List Nat × List EnvEntry
  | [] => ([], [])
  | .mark :: rest => ([], rest)
  | .var _ (some (.owned id)) :: rest =>
    let p := framePop rest
    (id :: p.1, p.2)
  | .var _ _ :: rest => framePop rest

/-- The statements of the embedded program, one constructor per statement
form that occurs in src/src/main.rs. -/
inductive Stmt where
  | letRef (x : String) (lit : String)
  | assignRef (x : String) (lit : String)
  | letCopy (x y : String)
  | letFrom (x : String) (lit : String)
  | pushStr (x : String) (lit : String)
  | letMove (x y : String)
  | letClone (x y : String)
  | dropVar (x : String)
  | printVar (x : String)
  | printPair (pre mid : String) (x y : String)
  | pushScope
  | popScope
  deriving DecidableEq, Repr

/-- Small-step execution of one statement.  A use of an unbound or moved-out
binding, of a released buffer, or of a literal absent from the program image
is an error; the embedded program never triggers one. -/
def execStmt : Stmt → RState → Except String RState
  | .letRef x lit, st =>
    if st.image.contains lit then
      .ok { st with env := .var x (some (.strRef lit)) :: st.env }
    else .error "unknown literal"
  | .assignRef x lit, st =>
    if st.image.contains lit then
      match envLookup st.env x with
      | some _ => .ok { st with env := envSet st.env x (some (.strRef lit)) }
      | none => .error "unbound variable"
    else .error "unknown literal"
  | .letCopy x y, st =>
    match envLookup st.env y with
    | some (some (.strRef s)) =>
      .ok { st with env := .var x (some (.strRef s)) :: st.env }
    | _ => .error "copy source invalid"
  | .letFrom x lit, st =>
    if st.image.contains lit then
      .ok { st with heap := (st.nextId, lit, true) :: st.heap,
                    env := .var x (some (.owned st.nextId)) :: st.env,
                    nextId := st.nextId + 1 }
    else .error "unknown literal"
  | .pushStr x lit, st =>
    if st.image.contains lit then
      match envLookup st.env x with
      | some (some (.owned id)) =>
        match heapGet st.heap id with
        | some (c, true) =>
          .ok { st with heap := heapSetContent st.heap id (c ++ lit) }
        | _ => .error "buffer not alive"
      | _ => .error "push target invalid"
    else .error "unknown literal"
  | .letMove x y, st =>
    match envLookup st.env y with
    | some (some (.owned id)) =>
      .ok { st with env := .var x (some (.owned id)) :: envSet st.env y none }
    | _ => .error "move source invalid"
  | .letClone x y, st =>
    match envLookup st.env y with
    | some (some (.owned id)) =>
      match heapGet st.heap id with
      | some (c, true) =>
        .ok { st with heap := (st.nextId, c, true) :: st.heap,
                      env := .var x (some (.owned st.nextId)) :: st.env,
                      nextId := st.nextId + 1 }
      | _ => .error "clone of dead buffer"
    | _ => .error "clone source invalid"
  | .dropVar x, st =>
    match envLookup st.env x with
    | some (some (.owned id)) =>
      match heapGet st.heap id with
      | some (_, true) =>
        .ok { st with heap := heapKill st.heap id,
                      drops := st.drops ++ [id],
                      env := envSet st.env x none }
      | _ => .error "double free"
    | _ => .error "drop of invalid value"
  | .printVar x, st =>
    match envLookup st.env x with
    | some (some (.strRef s)) => .ok { st with output := st.output ++ [s] }
    | some (some (.owned id)) =>
      match heapGet st.heap id with
      | some (c, true) => .ok { st with output := st.output ++ [c] }
      | _ => .error "print of dead buffer"
    | _ => .error "print of invalid value"
  | .printPair pre mid x y, st =>
    if st.image.contains pre && st.image.contains mid then
      match envLookup st.env x, envLookup st.env y with
      | some (some (.owned i)), some (some (.owned j)) =>
        match heapGet st.heap i, heapGet st.heap j with
        | some (cx, true), some (cy, true) =>
          .ok { st with output := st.output ++ [pre ++ cx ++ mid ++ cy] }
        | _, _ => .error "print of dead buffer"
      | _, _ => .error "print of invalid value"
    else .error "unknown literal"
  | .pushScope, st => .ok { st with env := .mark :: st.env }
  | .popScope, st =>
    let p := framePop st.env
    .ok { st with env := p.2, heap := heapKillAll st.heap p.1,
                  drops := st.drops ++ p.1 }

/-- Execute a statement list left to right, stopping at the first error. -/
def execStmts : List Stmt → RState → Except String RState
  | [], st => .ok st
  | s :: ss, st =>
    match execStmt s st with
    | .ok st' => execStmts ss st'
    | .error e => .error e

/-- The body of the entry routine `main` before the call to `strings()`:
`let mut s: &str = "wow"; println!("{s}"); s = "howw";
{ println!("{s}"); } let x = s; println!("{x}");`. -/
def mainStmts : List Stmt :=
  [ .letRef "s" "wow", .printVar "s", .assignRef "s" "howw",
    .pushScope, .printVar "s", .popScope,
    .letCopy "x" "s", .printVar "x" ]

/-- The executable body of the auxiliary routine `strings`. -/
def stringsStmts : List Stmt :=
  [ .letFrom "str" "hello", .pushStr "str" ", world", .printVar "str",
    .letFrom "s1" "hello", .letMove "s2" "s1", .dropVar "s2",
    .letFrom "s1" "hello", .letClone "s2" "s1",
    .printPair "s1 = " ", s2 = " "s1" "s2" ]

/-- The call `strings()`: the routine's body inside its own scope frame,
whose end releases the routine's still-owned buffers. -/
def stringsFull : List Stmt := .pushScope :: stringsStmts ++ [.popScope]

/-- The whole program: `main`'s scope, its statements, then — as `main`'s
last action — the call to `strings`, then the end of `main`'s scope. -/
def programStmts : List Stmt :=
  .pushScope :: mainStmts ++ stringsFull ++ [.popScope]

/-- The string literals hardcoded into the program image. -/
def theImage : List String :=
  ["wow", "howw", "hello", ", world", "s1 = ", ", s2 = "]

/-- The initial state of a run given the external input. -/
def initState (input : List String) : RState :=
  { env := [], heap := [], nextId := 0, output := [], drops := [],
    image := theImage, input := input }

/-- A full run of the embedded program. -/
def runProgram (input : List String) : Except String RState :=
  execStmts programStmts (initState input)

/-- The standard output of a run (`none` on abnormal termination). -/
def programOutput (input : List String) : Option (List String) :=
  match runProgram input with
  | .ok st => some st.output
  | .error _ => none

/-- The states reached after each successfully executed statement. -/
def traceStates : List Stmt → RState → List RState
  | [], _ => []
  | s :: ss, st =>
    match execStmt s st with
    | .ok st' => st' :: traceStates ss st'
    | .error _ => []

/-- Every state of the program's run, the initial one included. -/
def programTrace : List RState :=
  initState [] :: traceStates programStmts (initState [])

/-- The allocation ids currently owned by a valid binding. -/
def ownersOf (st : RState) : List Nat :=
  st.env.filterMap fun e =>
    match e with
    | .var _ (some (.owned id)) => some id
    | _ => none

/-- No two valid bindings own the same unit of backing storage. -/
def uniqueOwners (st : RState) : Bool :=
  decide (ownersOf st).Nodup

/-- The drop log of the completed run. -/
def finalDrops : List Nat :=
  match runProgram [] with
  | .ok st => st.drops
  | .error _ => []

/-- The number of buffers allocated over the completed run. -/
def finalAllocs : Nat :=
  match runProgram [] with
  | .ok st => st.nextId
  | .error _ => 0

/-- The auxiliary routine with its second step (the create/move/drop group,
statements 3–5 of its body) removed. -/
def stringsNoStep2 : List Stmt := stringsStmts.take 3 ++ stringsStmts.drop 6

/-- The whole program with the auxiliary routine's second step removed. -/
def programNoStep2 : List Stmt :=
  .pushScope :: mainStmts ++ (.pushScope :: stringsNoStep2 ++ [.popScope])
    ++ [.popScope]

/-- The standard output of the reduced program. -/
def programNoStep2Output : Option (List String) :=
  match execStmts programNoStep2 (initState []) with
  | .ok st => some st.output
  | .error _ => none

/-! ### The static ownership checker

A compile-time analysis in the style of the borrow checker's move tracking:
it records, for each binding, whether it holds a `&str` reference (a `Copy`
type) or an owned `String`, and whether ownership has been moved out of it.
Reading a moved-out binding is rejected, before any execution. -/

/-- The static kind of a binding's value. -/
inductive VKind where
  | ref
  | owned
  deriving DecidableEq, Repr

/-- A static context entry: a binding whose kind is `none` once its value
has been moved out of (so any later use of it is rejected), or a scope
mark. -/
inductive CEntry where
  | var (name : String) (k : Option VKind)
  | mark
  deriving DecidableEq, Repr

/-- Look up the most recent static binding with the given name. -/
def clookup : List CEntry → String → Option (Option VKind)
  | [], _ => none
  | .var n k :: rest, x => if n = x then some k else clookup rest x
  | .mark :: rest, x => clookup rest x

/-- Overwrite the most recent static binding with the given name. -/
def cset : List CEntry → String → Option VKind → List CEntry
  | [], _, _ => []
  | .var n k :: rest, x, w =>
    if n = x then .var n w :: rest else .var n k :: cset rest x w
  | .mark :: rest, x, w => .mark :: cset rest x w

/-- Pop static entries up to and including the innermost scope mark. -/
def cpop : List CEntry → List CEntry
  | [] => []
  | .mark :: rest => rest
  | .var _ _ :: rest => cpop rest

/-- Statically check one statement: `none` rejects the program.  Any read of
an unbound or moved-out binding is rejected; a move or an explicit drop
invalidates its source binding. -/
def checkStmt : Stmt → List CEntry → Option (List CEntry)
  | .letRef x _, Γ => some (.var x (some .ref) :: Γ)
  | .assignRef x _, Γ =>
    match clookup Γ x with
    | some _ => some (cset Γ x (some .ref))
    | none => none
  | .letCopy x y, Γ =>
    match clookup Γ y with
    | some (some .ref) => some (.var x (some .ref) :: Γ)
    | _ => none
  | .letFrom x _, Γ => some (.var x (some .owned) :: Γ)
  | .pushStr x _, Γ =>
    match clookup Γ x with
    | some (some .owned) => some Γ
    | _ => none
  | .letMove x y, Γ =>
    match clookup Γ y with
    | some (some .owned) => some (.var x (some .owned) :: cset Γ y none)
    | _ => none
  | .letClone x y, Γ =>
    match clookup Γ y with
    | some (some .owned) => some (.var x (some .owned) :: Γ)
    | _ => none
  | .dropVar x, Γ =>
    match clookup Γ x with
    | some (some .owned) => some (cset Γ x none)
    | _ => none
  | .printVar x, Γ =>
    match clookup Γ x with
    | some (some _) => some Γ
    | _ => none
  | .printPair _ _ x y, Γ =>
    match clookup Γ x, clookup Γ y with
    | some (some _), some (some _) => some Γ
    | _, _ => none
  | .pushScope, Γ => some (.mark :: Γ)
  | .popScope, Γ => some (cpop Γ)

/-- Statically check a statement list. -/
def checkStmts : List Stmt → List CEntry → Option (List CEntry)
  | [], Γ => some Γ
  | s :: ss, Γ =>
    match checkStmt s Γ with
    | some Γ' => checkStmts ss Γ'
    | none => none

/-- The use-after-move variant written (commented out) at lines 80–82 of the
source: create a buffer, move it to a new binding, then read the moved-from
binding.  The source states this is rejected at compile time. -/
def useAfterMoveStmts : List Stmt :=
  [ .letFrom "s1" "hello", .letMove "s2" "s1", .printVar "s1" ]

/-- `true` on a successful run result. -/
def runOk : Except String RState → Bool
  | .ok _ => true
  | .error _ => false

/-- The output of running a statement list from the initial state. -/
def outputAfter (ss : List Stmt) : List String :=
  match execStmts ss (initState []) with
  | .ok st => st.output
  | .error _ => []

/-- The current contents of the buffer owned by binding `x`. -/
def contentOf (st : RState) (x : String) : Option String :=
  match envLookup st.env x with
  | some (some (.owned id)) => (heapGet st.heap id).map (·.1)
  | _ => none

/-- The state reached after `main`'s own statements, just before the
`strings()` call. -/
def mainExitState : RState :=
  { env := [.var "x" (some (.strRef "howw")), .var "s" (some (.strRef "howw")),
            .mark],
    heap := [], nextId := 0, output := ["wow", "howw", "howw"], drops := [],
    image := theImage, input := [] }

/-- The run of the auxiliary routine up to and including the clone
(statement 8 of its body). -/
def afterClone : Except String RState :=
  execStmts (.pushScope :: stringsStmts.take 8) (initState [])

/-- The contents of binding `x`'s buffer right after the clone. -/
def contentAfterClone (x : String) : Option String :=
  match afterClone with
  | .ok st => contentOf st x
  | .error _ => none

/-- A concrete one-binding state exercising the clone lemma. -/
def cloneDemoState : RState :=
  { env := [.var "s1" (some (.owned 0))], heap := [(0, "hello", true)],
    nextId := 1, output := [], drops := [], image := theImage, input := [] }

/-- The state of the entry routine just before `s = "howw"`. -/
def rebindBefore : RState :=
  { env := [.var "s" (some (.strRef "wow")), .mark], heap := [], nextId := 0,
    output := ["wow"], drops := [], image := theImage, input := [] }

/-- The state of the entry routine just after `s = "howw"`. -/
def rebindAfter : RState :=
  { env := [.var "s" (some (.strRef "howw")), .mark], heap := [], nextId := 0,
    output := ["wow"], drops := [], image := theImage, input := [] }

/-! ### Helper lemmas -/

/-- Replace the external input of a state. -/
def withInput (i : List String) (st : RState) : RState := { st with input := i }

/-- No statement reads the external input: execution commutes with
replacing it. -/
theorem execStmt_withInput (s : Stmt) (st : RState) (i : List String) :
    execStmt s (withInput i st) = (execStmt s st).map (withInput i) := by
  cases s <;>
    simp only [execStmt, withInput] <;>
    (repeat' split) <;>
    rfl

/-- No statement list reads the external input. -/
theorem execStmts_withInput (ss : List Stmt) (st : RState) (i : List String) :
    execStmts ss (withInput i st) = (execStmts ss st).map (withInput i) := by
  induction ss generalizing st with
  | nil => rfl
  | cons s ss ih =>
    simp only [execStmts, execStmt_withInput]
    cases execStmt s st <;> simp [Except.map, ih]

/-- Executing a concatenation is executing the parts in sequence. -/
theorem execStmts_append (a b : List Stmt) (st : RState) :
    execStmts (a ++ b) st =
      match execStmts a st with
      | .ok st' => execStmts b st'
      | .error e => .error e := by
  induction a generalizing st with
  | nil => simp [execStmts]
  | cons s a ih =>
    simp only [List.cons_append, execStmts]
    cases execStmt s st <;> simp [ih]

/-- Leaving a scope never fails. -/
theorem execStmt_popScope_ok (st : RState) :
    ∃ st', execStmt .popScope st = .ok st' := ⟨_, rfl⟩

/-- No statement modifies the pool of literals embedded in the program
image. -/
theorem execStmt_image (s : Stmt) (st st' : RState)
    (h : execStmt s st = .ok st') : st'.image = st.image := by
  cases s <;>
    simp only [execStmt] at h <;>
    (repeat' split at h) <;>
    first
      | (injection h with h; subst h; rfl)
      | simp at h

/-- The external input does not influence standard output: a run's output is
the output of the run on empty input. -/
theorem programOutput_const (i : List String) :
    programOutput i = programOutput [] := by
  have h : initState i = withInput i (initState []) := rfl
  simp only [programOutput, runProgram, h, execStmts_withInput]
  cases execStmts programStmts (initState []) <;> simp [Except.map, withInput]

/-- `heapGet` ignores a content update at a different allocation id. -/
theorem heapGet_heapSetContent_ne (h : Heap) (i j : Nat) (c : String)
    (hne : i ≠ j) : heapGet (heapSetContent h j c) i = heapGet h i := by
  induction h with
  | nil => rfl
  | cons e rest ih =>
    obtain ⟨k, d, a⟩ := e
    simp only [heapSetContent, heapGet]
    by_cases hk : k = j
    · subst hk
      have hki : ¬k = i := fun hh => hne (hh ▸ rfl)
      simp [heapGet, hki, ih]
    · by_cases hki : k = i <;> simp [heapGet, hk, hki, ih, hne]

/-- An id present in a bounded heap is below the bound. -/
theorem heapGet_lt (h : Heap) (n i : Nat) (p : String × Bool)
    (hb : h.all (fun e => e.1 < n) = true) (hg : heapGet h i = some p) :
    i < n := by
  induction h with
  | nil => simp [heapGet] at hg
  | cons e rest ih =>
    obtain ⟨k, d, a⟩ := e
    simp only [List.all_cons, Bool.and_eq_true, decide_eq_true_eq] at hb
    by_cases hk : k = i
    · subst hk; exact hb.1
    · simp only [heapGet, hk, if_false] at hg
      exact ih hb.2 hg

/-- Overwriting a bound name makes lookup return the new value. -/
theorem envLookup_envSet_self (Γ : List EnvEntry) (x : String)
    (v w : Option Value) (h : envLookup Γ x = some w) :
    envLookup (envSet Γ x v) x = some v := by
  induction Γ with
  | nil => simp [envLookup] at h
  | cons e rest ih =>
    cases e with
    | var n u =>
      by_cases hn : n = x
      · subst hn; simp [envLookup, envSet]
      · simp only [envLookup, envSet, hn, if_false] at h ⊢
        exact ih h
    | mark =>
      simp only [envLookup, envSet] at h ⊢
      exact ih h

/-! ### The claims -/

/-- C1: for the given literal inputs, running the program (entry routine
followed by the auxiliary routine) writes to standard output exactly the
five lines "wow", "howw", "howw", "hello, world",
"s1 = hello, s2 = hello", in that order, and nothing else — whatever the
external input. -/
theorem c1_output_exact (input : List String) :
    programOutput input =
      some ["wow", "howw", "howw", "hello, world",
            "s1 = hello, s2 = hello"] := by
  rw [programOutput_const]
  decide

/-- C2: every unit of backing storage allocated during the run is released
exactly once — the drop log contains each allocation id exactly once and
nothing else, covering the explicit early release and the implicit
end-of-scope releases — and in every reachable state at most one valid
binding owns any allocation; the run completes normally. -/
theorem c2_release_exactly_once :
    ((List.range finalAllocs).all fun id => finalDrops.count id == 1)
      = true ∧
    finalDrops.length = finalAllocs ∧
    programTrace.all uniqueOwners = true ∧
    runOk (runProgram []) = true :=
  ⟨by decide, by decide, by decide, by decide⟩

/-- C3: the static move checker accepts the embedded program (in the
auxiliary routine's step 2 neither binding is read after the
transfer/release), it rejects — before any execution — the use-after-move
variant from the source's comments, and the accepted program runs without
any runtime fault. -/
theorem c3_use_after_move_rejected :
    (checkStmts programStmts []).isSome = true ∧
    checkStmts useAfterMoveStmts [] = none ∧
    runOk (runProgram []) = true :=
  ⟨by decide, by decide, by decide⟩

/-- C4: cloning an owned buffer and then mutating the clone leaves the
original's contents unchanged: from any well-formed state in which `y` owns
a live buffer `id` with contents `c`, executing `let x = y.clone();
x.push_str(lit)` succeeds, gives `x` fresh backing storage distinct from
`id`, holding `c ++ lit`, while the buffer `id` still holds `c`. -/
theorem c4_clone_independent (st : RState) (x y lit : String) (id : Nat)
    (c : String)
    (hwf : st.heap.all (fun e => e.1 < st.nextId) = true)
    (hy : envLookup st.env y = some (some (.owned id)))
    (hc : heapGet st.heap id = some (c, true))
    (hlit : st.image.contains lit = true) :
    ∃ st', execStmts [.letClone x y, .pushStr x lit] st = .ok st' ∧
      envLookup st'.env x = some (some (.owned st.nextId)) ∧
      st.nextId ≠ id ∧
      heapGet st'.heap st.nextId = some (c ++ lit, true) ∧
      heapGet st'.heap id = some (c, true) := by
  have hid : id < st.nextId := heapGet_lt st.heap st.nextId id (c, true) hwf hc
  have hne : st.nextId ≠ id := (Nat.ne_of_lt hid).symm
  refine ⟨{ st with
      heap := (st.nextId, c ++ lit, true)
        :: heapSetContent st.heap st.nextId (c ++ lit),
      env := .var x (some (.owned st.nextId)) :: st.env,
      nextId := st.nextId + 1 }, ?_, ?_, hne, ?_, ?_⟩
  · have hmem : lit ∈ st.image := by simpa using hlit
    simp [execStmts, execStmt, hy, hc, hlit, hmem, envLookup, heapGet,
      heapSetContent]
  · simp [envLookup]
  · simp [heapGet]
  · simp only [heapGet, if_neg hne]
    rw [heapGet_heapSetContent_ne st.heap id st.nextId (c ++ lit)
      (Nat.ne_of_lt hid)]
    exact hc

/-- Witness for C4 at a concrete state: `s1` owns buffer 0 holding "hello";
cloning into `s2` and appending ", world" to `s2` leaves buffer 0 intact. -/
theorem c4_clone_independent_witness :
    cloneDemoState.heap.all (fun e => e.1 < cloneDemoState.nextId) = true ∧
    envLookup cloneDemoState.env "s1" = some (some (.owned 0)) ∧
    heapGet cloneDemoState.heap 0 = some ("hello", true) ∧
    cloneDemoState.image.contains ", world" = true ∧
    (∃ st', execStmts [.letClone "s2" "s1", .pushStr "s2" ", world"]
        cloneDemoState = .ok st' ∧
      envLookup st'.env "s2" = some (some (.owned cloneDemoState.nextId)) ∧
      cloneDemoState.nextId ≠ 0 ∧
      heapGet st'.heap cloneDemoState.nextId
        = some ("hello" ++ ", world", true) ∧
      heapGet st'.heap 0 = some ("hello", true)) :=
  ⟨by decide, by decide, by decide, by decide,
    c4_clone_independent cloneDemoState "s2" "s1" ", world" 0 "hello"
      (by decide) (by decide) (by decide) (by decide)⟩

/-- C5: the auxiliary routine's first step creates a buffer holding
"hello", appends ", world", and prints the concatenation of the two
literals. -/
theorem c5_append_concat :
    stringsStmts.take 3 =
      [.letFrom "str" "hello", .pushStr "str" ", world",
       .printVar "str"] ∧
    outputAfter (stringsStmts.take 3) = ["hello" ++ ", world"] :=
  ⟨rfl, rfl⟩

/-- C6: the entry routine's own statements never fail, its last action is
the call to the auxiliary routine, and the program's run is successful if
and only if the auxiliary routine's run from the state the entry routine
hands over is successful. -/
theorem c6_exit_iff_strings (i : List String) :
    runOk (execStmts (.pushScope :: mainStmts) (initState i)) = true ∧
    ∀ st, execStmts (.pushScope :: mainStmts) (initState i) = .ok st →
      (runOk (runProgram i) = true ↔
       runOk (execStmts stringsFull st) = true) := by
  constructor
  · have h0 : initState i = withInput i (initState []) := rfl
    have h1 : execStmts (.pushScope :: mainStmts) (initState [])
        = .ok mainExitState := rfl
    rw [h0, execStmts_withInput, h1]
    rfl
  · intro st h
    have hprog : programStmts
        = (.pushScope :: mainStmts) ++ (stringsFull ++ [.popScope]) := by
      decide
    have hrun : runProgram i = execStmts (stringsFull ++ [.popScope]) st := by
      simp only [runProgram, hprog, execStmts_append, h]
    rw [hrun, execStmts_append]
    cases hs : execStmts stringsFull st with
    | ok s2 => simp [execStmts, execStmt, runOk]
    | error e => simp [runOk]

/-- Witness for C6: the state the entry routine hands to `strings()`. -/
theorem c6_exit_iff_strings_witness :
    execStmts (.pushScope :: mainStmts) (initState []) = .ok mainExitState ∧
    (runOk (runProgram []) = true ↔
     runOk (execStmts stringsFull mainExitState) = true) :=
  ⟨rfl, (c6_exit_iff_strings []).2 mainExitState rfl⟩

/-- C7: reassigning a binding that holds a literal reference only repoints
that binding: the successor state differs from its predecessor exactly in
that binding, the program image, heap, and output are untouched, the image
is constant over the whole run, and both "wow" and "howw" stay in it. -/
theorem c7_rebind_frame (st st' : RState) (x lit : String)
    (h : execStmt (.assignRef x lit) st = .ok st') :
    st' = { st with env := envSet st.env x (some (.strRef lit)) } ∧
    envLookup st'.env x = some (some (.strRef lit)) ∧
    st'.image = st.image ∧ st'.heap = st.heap ∧ st'.output = st.output ∧
    programTrace.all (fun s => s.image == theImage) = true ∧
    theImage.contains "wow" = true ∧ theImage.contains "howw" = true := by
  simp only [execStmt] at h
  by_cases hlit : st.image.contains lit = true
  · rw [if_pos hlit] at h
    cases hx : envLookup st.env x with
    | none => rw [hx] at h; exact Except.noConfusion h
    | some w =>
      rw [hx] at h
      injection h with h
      subst h
      exact ⟨rfl, envLookup_envSet_self st.env x _ w hx, rfl, rfl, rfl,
        by decide, by decide, by decide⟩
  · rw [if_neg hlit] at h
    exact Except.noConfusion h

/-- Witness for C7 at the run's actual rebinding `s = "howw"`. -/
theorem c7_rebind_frame_witness :
    execStmt (.assignRef "s" "howw") rebindBefore = .ok rebindAfter ∧
    (rebindAfter = { rebindBefore with
        env := envSet rebindBefore.env "s" (some (.strRef "howw")) } ∧
     envLookup rebindAfter.env "s" = some (some (.strRef "howw")) ∧
     rebindAfter.image = rebindBefore.image ∧
     rebindAfter.heap = rebindBefore.heap ∧
     rebindAfter.output = rebindBefore.output ∧
     programTrace.all (fun s => s.image == theImage) = true ∧
     theImage.contains "wow" = true ∧ theImage.contains "howw" = true) :=
  ⟨rfl, c7_rebind_frame rebindBefore rebindAfter "s" "howw" rfl⟩

/-- C8: the program reads no input of any kind, so any two runs — whatever
their external inputs — produce the same standard output. -/
theorem c8_no_input_deterministic (i1 i2 : List String) :
    programOutput i1 = programOutput i2 := by
  rw [programOutput_const i1, programOutput_const i2]

/-- C9: the auxiliary routine's second step (create a buffer, move it,
release it) contributes nothing to standard output: the program with those
three statements removed produces the same output as the full program. -/
theorem c9_step2_silent :
    stringsStmts = stringsStmts.take 3 ++
      [.letFrom "s1" "hello", .letMove "s2" "s1", .dropVar "s2"] ++
      stringsStmts.drop 6 ∧
    programNoStep2Output = programOutput [] :=
  ⟨rfl, rfl⟩

/-- C10: right after the clone in the auxiliary routine's third step, the
original and the duplicate hold equal contents ("hello"), and the final
printed line shows the same text twice. -/
theorem c10_clone_equal :
    contentAfterClone "s1" = some "hello" ∧
    contentAfterClone "s2" = some "hello" ∧
    contentAfterClone "s1" = contentAfterClone "s2" ∧
    Option.bind (programOutput []) List.getLast?
      = some ("s1 = " ++ "hello" ++ ", s2 = " ++ "hello") :=
  ⟨by decide, by decide, by decide, by decide⟩

end Ch4
